import Mathlib

/-!
Shallow embedding of the mod-side-checker repository (src/src/checker.py,
src/src/file_manager.py, src/main.py) and proofs about its claims.

The embedding translates the Python source directly:
- list slicing loops become structural or well-founded recursion on lists;
- code that raises an exception is modelled with Option or Except, with
  a returned none or error standing for the raised exception;
- the HTTP call of get_mod_environment is an explicit oracle argument
  (HttpOutcome) describing what the requests library would have done.
-/

namespace ModSideChecker

/-- Embeds the slicing comprehension of process_mods (checker.py lines
200-203): mods_list[i:i + batch_size] for i in range(0, total_mods,
batch_size), for a positive step batch_size.  The bs = 0 branch is dead
in this embedding because partition returns none before calling it in
that case, mirroring the ValueError the Python range raises. -/
def chunkList {α : Type} (bs : Nat) (l : List α) : List (List α) :=
  if hz : bs = 0 then []
  else if h : l.isEmpty then []
  else l.take bs :: chunkList bs (l.drop bs)
termination_by l.length
decreasing_by
  have hl : 0 < l.length := by
    cases l with
    | nil => simp [List.isEmpty] at h
    | cons a t => simp
  have hbs : 0 < bs := by omega
  simpa [List.length_drop] using Nat.sub_lt hl hbs

/-- Embeds the merge step of process_mods (checker.py lines 206-208):
mod_batches[-2].extend(mod_batches[-1]); mod_batches.pop().  The
second-to-last chunk absorbs the last one; other chunks are unchanged. -/
def mergeLastTwo {α : Type} (chunks : List (List α)) : List (List α) :=
  match chunks.reverse with
  | lastC :: sndC :: rest => ((sndC ++ lastC) :: rest).reverse
  | _ => chunks

/-- Embeds the partitioning step of process_mods (checker.py lines
198-208).  none models the exception the Python code raises:
ZeroDivisionError when max_threads = 0, and ValueError from
range(0, total_mods, 0) when batch_size = total_mods // max_threads
is 0.  The merge of the last two chunks runs at most once, exactly as
the single if statement in the source. -/
def partition {α : Type} (items : List α) (n : Nat) : Option (List (List α)) :=
  if n = 0 then none
  else
    let bs := items.length / n
    if bs = 0 then none
    else
      let chunks := chunkList bs items
      some (if chunks.length > n then mergeLastTwo chunks else chunks)

theorem chunkList_nil {α : Type} (bs : Nat) : chunkList (α := α) bs [] = [] := by
  rw [chunkList]
  simp

theorem chunkList_cons {α : Type} (bs : Nat) (hbs : bs ≠ 0) (l : List α)
    (hl : l ≠ []) : chunkList bs l = l.take bs :: chunkList bs (l.drop bs) := by
  rw [chunkList]
  simp [hbs, hl]

/-- Concatenating the chunks gives back the original list. -/
theorem chunkList_flatten {α : Type} (bs : Nat) (hbs : bs ≠ 0) (l : List α) :
    (chunkList bs l).flatten = l := by
  by_cases hl : l = []
  · subst hl
    simp [chunkList_nil]
  · rw [chunkList_cons bs hbs l hl]
    have ih := chunkList_flatten bs hbs (l.drop bs)
    simp [ih, List.take_append_drop]
termination_by l.length
decreasing_by
  have hl0 : 0 < l.length := List.length_pos.mpr hl
  have hbs0 : 0 < bs := Nat.pos_of_ne_zero hbs
  simpa [List.length_drop] using Nat.sub_lt hl0 hbs0

/-- Number of chunks produced by the slicing loop: the ceiling of
l.length / bs. -/
theorem chunkList_length {α : Type} (bs : Nat) (hbs : bs ≠ 0) (l : List α) :
    (chunkList bs l).length = (l.length + bs - 1) / bs := by
  by_cases hl : l = []
  · subst hl
    have : bs - 1 < bs := Nat.sub_lt (Nat.pos_of_ne_zero hbs) Nat.one_pos
    simp [chunkList_nil, Nat.div_eq_of_lt this]
  · rw [chunkList_cons bs hbs l hl]
    have ih := chunkList_length bs hbs (l.drop bs)
    have hl0 : 0 < l.length := List.length_pos.mpr hl
    have hbs0 : 0 < bs := Nat.pos_of_ne_zero hbs
    simp only [List.length_cons, ih, List.length_drop]
    rcases Nat.le_total l.length bs with hle | hle
    · have h1 : l.length - bs = 0 := Nat.sub_eq_zero_of_le hle
      have h2 : (0 + bs - 1) / bs = 0 := by
        apply Nat.div_eq_of_lt
        omega
      have h3 : (l.length + bs - 1) / bs = 1 := by
        have hlo : 1 * bs ≤ l.length + bs - 1 := by omega
        have hhi : l.length + bs - 1 < (1 + 1) * bs := by omega
        exact Nat.div_eq_of_lt_le hlo hhi
      rw [h1, h2, h3]
    · have h4 : l.length - bs + bs - 1 + bs = l.length + bs - 1 := by omega
      calc (l.length - bs + bs - 1) / bs + 1
          = (l.length - bs + bs - 1 + bs) / bs := (Nat.add_div_right _ hbs0).symm
        _ = (l.length + bs - 1) / bs := by rw [h4]
termination_by l.length
decreasing_by
  have hl0 : 0 < l.length := List.length_pos.mpr hl
  have hbs0 : 0 < bs := Nat.pos_of_ne_zero hbs
  simpa [List.length_drop] using Nat.sub_lt hl0 hbs0

/-- Merging the last two chunks keeps the concatenation of all chunks. -/
theorem mergeLastTwo_flatten {α : Type} (chunks : List (List α)) :
    (mergeLastTwo chunks).flatten = chunks.flatten := by
  unfold mergeLastTwo
  match h : chunks.reverse with
  | [] => rfl
  | [a] => rfl
  | lastC :: sndC :: rest =>
    have hc : chunks = (lastC :: sndC :: rest).reverse := by
      rw [← h, List.reverse_reverse]
    subst hc
    simp [List.flatten_append, List.append_assoc]

/-- Merging the last two chunks of a list of at least two chunks shortens
it by exactly one. -/
theorem mergeLastTwo_length {α : Type} (chunks : List (List α))
    (h2 : 2 ≤ chunks.length) :
    (mergeLastTwo chunks).length = chunks.length - 1 := by
  unfold mergeLastTwo
  match h : chunks.reverse with
  | [] =>
    rw [List.reverse_eq_nil_iff] at h
    subst h
    simp at h2
  | [a] =>
    have : chunks.length = 1 := by
      have := congrArg List.length h
      simpa using this
    omega
  | lastC :: sndC :: rest =>
    have hlen : chunks.length = rest.length + 2 := by
      have := congrArg List.length h
      simpa using this
    simp [hlen]

/-- Unfolding of partition when neither exception branch fires. -/
theorem partition_eq {α : Type} (items : List α) (n : Nat) (hn0 : n ≠ 0)
    (hq0 : items.length / n ≠ 0) :
    partition items n
      = some (if (chunkList (items.length / n) items).length > n
          then mergeLastTwo (chunkList (items.length / n) items)
          else chunkList (items.length / n) items) := by
  simp only [partition, if_neg hn0, if_neg hq0]

/-- Claim C1, amended.  For n workers and L = len(items) with L >= n > 0,
the slicing step makes ceil(L / (L / n)) chunks; whenever the remainder
L mod n is at most the chunk size L / n this is n or n + 1 chunks, and
after the single merge of the last two chunks exactly n batches remain. -/
theorem partition_exact_count {α : Type} (items : List α) (n : Nat)
    (hn : 0 < n) (hL : n ≤ items.length)
    (hr : items.length % n ≤ items.length / n) :
    (partition items n).map List.length = some n := by
  have hn0 : n ≠ 0 := by omega
  have hq0 : 0 < items.length / n := (Nat.one_le_div_iff hn).mpr hL
  have hq0' : items.length / n ≠ 0 := by omega
  have hmod := Nat.div_add_mod items.length n
  have hchunks : (chunkList (items.length / n) items).length
      = n + (items.length % n + items.length / n - 1) / (items.length / n) := by
    rw [chunkList_length _ hq0' items]
    have h1 : items.length + items.length / n - 1
        = (items.length / n) * n
          + (items.length % n + items.length / n - 1) := by
      rw [Nat.mul_comm]
      omega
    rw [h1, Nat.mul_add_div hq0]
  rw [partition_eq items n hn0 hq0']
  rcases Nat.eq_zero_or_pos (items.length % n) with hr0 | hrpos
  · have hceil :
        (items.length % n + items.length / n - 1) / (items.length / n) = 0 :=
      Nat.div_eq_of_lt (by omega)
    have hlen : (chunkList (items.length / n) items).length = n := by
      rw [hchunks, hceil]
      omega
    have hnot : ¬ (chunkList (items.length / n) items).length > n := by
      rw [hlen]
      omega
    rw [if_neg hnot]
    simp [hlen]
  · have hceil :
        (items.length % n + items.length / n - 1) / (items.length / n) = 1 :=
      Nat.div_eq_of_lt_le (by omega) (by omega)
    have hlen : (chunkList (items.length / n) items).length = n + 1 := by
      rw [hchunks, hceil]
    have hgt : (chunkList (items.length / n) items).length > n := by
      rw [hlen]
      omega
    have h2 : 2 ≤ (chunkList (items.length / n) items).length := by
      rw [hlen]
      omega
    rw [if_pos hgt]
    have hm := mergeLastTwo_length (chunkList (items.length / n) items) h2
    simp [hm, hlen]

/-- Witness for partition_exact_count: 7 items over 3 workers give chunk
sizes [2, 2, 2, 1], and the merge leaves exactly 3 batches. -/
theorem partition_exact_count_witness :
    0 < 3 ∧ 3 ≤ (List.range 7).length
    ∧ (List.range 7).length % 3 ≤ (List.range 7).length / 3
    ∧ (partition (List.range 7) 3).map List.length = some 3 :=
  ⟨by decide, by decide, by decide,
    partition_exact_count (List.range 7) 3 (by decide) (by decide) (by decide)⟩

/-- Concrete evaluation: 5 items over 3 workers give 4 batches. -/
theorem partition_five_three :
    (partition (List.range 5) 3).map List.length = some 4 := by
  simp [partition, chunkList, mergeLastTwo, List.range_succ]

/-- Concrete evaluation: 5 items over 2 workers give [[0, 1], [2, 3, 4]]. -/
theorem partition_five_two :
    partition (List.range 5) 2 = some [[0, 1], [2, 3, 4]] := by
  simp [partition, chunkList, mergeLastTwo, List.range_succ]

/-- Counterexample to claim C1 as stated: 5 items split over 3 workers
give batch_size 1, hence 5 chunks; the single merge leaves 4 batches,
not 3. -/
theorem partition_count_counterexample :
    (partition (List.range 5) 3).map List.length ≠ some 3
    ∧ (partition (List.range 5) 3).map List.length = some 4 := by
  constructor
  · intro h
    have := partition_five_three
    rw [this] at h
    simp at h
  · exact partition_five_three

/-- Claim C2: process_mods with fewer items than workers.  The Python code
computes batch_size = len(items) // max_threads = 0 and then evaluates
range(0, len(items), 0), which raises ValueError, so partitioning crashes;
none models that exception. -/
theorem partition_small_none {α : Type} (items : List α) (n : Nat)
    (h : items.length < n) : partition items n = none := by
  have hn0 : n ≠ 0 := by omega
  unfold partition
  rw [if_neg hn0]
  have hq : items.length / n = 0 := Nat.div_eq_of_lt h
  simp [hq]

/-- Witness for partition_small_none at the claim input: 5 items and
10 workers. -/
theorem partition_small_none_witness :
    (List.range 5).length < 10 ∧ partition (List.range 5) 10 = none :=
  ⟨by decide, partition_small_none (List.range 5) 10 (by decide)⟩

/-- Claim C4: whenever the partitioning step succeeds, the concatenation
of the produced batches in batch order is exactly the input list. -/
theorem partition_flatten {α : Type} (items : List α) (n : Nat)
    (bs : List (List α)) (h : partition items n = some bs) :
    bs.flatten = items := by
  unfold partition at h
  by_cases hn0 : n = 0
  · rw [if_pos hn0] at h
    exact absurd h (by simp)
  · rw [if_neg hn0] at h
    by_cases hq0 : items.length / n = 0
    · simp only [hq0, if_pos rfl] at h
      exact absurd h (by simp)
    · simp only [if_neg hq0] at h
      have hbs : bs = if (chunkList (items.length / n) items).length > n
          then mergeLastTwo (chunkList (items.length / n) items)
          else chunkList (items.length / n) items := by
        injection h with h
        exact h.symm
      subst hbs
      split
      · rw [mergeLastTwo_flatten]
        exact chunkList_flatten _ hq0 items
      · exact chunkList_flatten _ hq0 items

/-- Witness for partition_flatten: 5 items over 2 workers give batches
[[0, 1], [2, 3, 4]] whose concatenation is the input. -/
theorem partition_flatten_witness :
    partition (List.range 5) 2 = some [[0, 1], [2, 3, 4]]
    ∧ [[0, 1], [2, 3, 4]].flatten = List.range 5 :=
  ⟨partition_five_two, partition_flatten (List.range 5) 2 _ partition_five_two⟩

/-- Embeds Python str.split with separator "/": splits the character
list at every '/' character, keeping empty segments, so that for
example the empty string gives one empty segment, exactly like
"".split('/') == [""] in Python.  The accumulator holds the current
segment reversed. -/
def splitOnSlash : List Char → List Char → List (List Char)
  | [], acc => [acc.reverse]
  | c :: rest, acc =>
    if c = '/' then acc.reverse :: splitOnSlash rest []
    else splitOnSlash rest (c :: acc)

/-- Embeds the project-id scan of get_mod_environment (checker.py line
64): next((parts[i + 1] for i, part in enumerate(parts) if part ==
'data'), None).  ok none models the generator being exhausted (the
None default); error models the IndexError that parts[i + 1] raises
when the first 'data' segment is the last segment. -/
def nextAfterData : List (List Char) → Except Unit (Option (List Char))
  | [] => Except.ok none
  | p :: rest =>
    if p = "data".toList then
      match rest with
      | [] => Except.error ()
      | q :: _ => Except.ok (some q)
    else nextAfterData rest

/-- Embeds the response-shape mapping of get_mod_environment (checker.py
lines 84-93) applied to the client_side and server_side attributes of a
successful registry response. -/
def mapSides (client_side server_side : String) : String :=
  if client_side = "required" ∧ server_side = "required" then "Both"
  else if client_side = "required" then "Client"
  else if server_side = "required" then "Server"
  else if client_side = "optional" ∧ server_side = "optional" then "Optional"
  else "Client: " ++ client_side ++ ", Server: " ++ server_side

/-- Oracle describing what requests.get and response.json would do for
one call: exn is a raised transport exception; resp carries the HTTP
status code, whether response.json() parses (jsonOk), and the optional
client_side and server_side fields of the parsed body (none models a
missing key, read with the default "unknown" by dict.get). -/
inductive HttpOutcome where
  | exn : HttpOutcome
  | resp (status : Nat) (jsonOk : Bool)
      (client_side server_side : Option String) : HttpOutcome
deriving DecidableEq

/-- Observable trace of one get_mod_environment call: the returned Side
string, whether requests.get was invoked, and whether the time.sleep
request delay ran. -/
structure FetchTrace where
  result : String
  requested : Bool
  slept : Bool
deriving DecidableEq

/-- Embeds get_mod_environment (checker.py lines 48-98) including its
observable effects.  Control flow follows the source exactly: the
stop_event short-circuit, the project-id derivation (with the falsy
check on an empty id), the requests.get call, the time.sleep placed
between the call and the status check, the status-200 JSON mapping,
and the catch-all except clause that turns any raised exception into
"Unknown". -/
def getModEnvironmentRun (stopSet : Bool) (download_url : String)
    (http : HttpOutcome) : FetchTrace :=
  if stopSet then { result := "Unknown", requested := false, slept := false }
  else
    match nextAfterData (splitOnSlash download_url.toList []) with
    | Except.error _ => { result := "Unknown", requested := false, slept := false }
    | Except.ok none => { result := "Unknown", requested := false, slept := false }
    | Except.ok (some pid) =>
      if pid = [] then { result := "Unknown", requested := false, slept := false }
      else
        match http with
        | HttpOutcome.exn => { result := "Unknown", requested := true, slept := false }
        | HttpOutcome.resp status jsonOk cs ss =>
          if status = 200 then
            if jsonOk then
              { result := mapSides (cs.getD "unknown") (ss.getD "unknown"),
                requested := true, slept := true }
            else { result := "Unknown", requested := true, slept := true }
          else { result := "Unknown", requested := true, slept := true }

/-- Return value of get_mod_environment, projected from the trace. -/
def get_mod_environment (stopSet : Bool) (download_url : String)
    (http : HttpOutcome) : String :=
  (getModEnvironmentRun stopSet download_url http).result

/-- Claim C3: the ordered mapping rules for a successful registry
response: both required gives Both; client required and server not
required gives Client; server required and client not required gives
Server; both optional gives Optional; any other pair gives the
fallback string, in particular the unknown/unknown pair. -/
theorem mapSides_spec (c s : String) :
    mapSides "required" "required" = "Both"
    ∧ (c = "required" → s ≠ "required" → mapSides c s = "Client")
    ∧ (s = "required" → c ≠ "required" → mapSides c s = "Server")
    ∧ mapSides "optional" "optional" = "Optional"
    ∧ (c ≠ "required" → s ≠ "required" → ¬(c = "optional" ∧ s = "optional") →
        mapSides c s = "Client: " ++ c ++ ", Server: " ++ s)
    ∧ mapSides "unknown" "unknown" = "Client: unknown, Server: unknown" := by
  refine ⟨by simp [mapSides], ?_, ?_, by simp [mapSides], ?_, by simp [mapSides]⟩
  · intro h1 h2
    simp [mapSides, h1, h2]
  · intro h1 h2
    simp [mapSides, h1, h2]
  · intro h1 h2 h3
    simp [mapSides, h1, h2, h3]

/-- Claim C6: get_mod_environment never lets an exception escape; every
input either takes a failure path and resolves to "Unknown", or is a
fully successful call (status 200 with parseable JSON, reached with a
derivable non-empty project id and no stop signal) mapped through the
side rules. -/
theorem getModEnvironment_total (stop : Bool) (url : String)
    (http : HttpOutcome) :
    get_mod_environment stop url http = "Unknown"
    ∨ ∃ cs ss, http = HttpOutcome.resp 200 true cs ss
        ∧ get_mod_environment stop url http
            = mapSides (cs.getD "unknown") (ss.getD "unknown") := by
  unfold get_mod_environment getModEnvironmentRun
  cases stop with
  | true => left; rfl
  | false =>
    simp only [Bool.false_eq_true, if_false]
    cases hsplit : nextAfterData (splitOnSlash url.toList []) with
    | error e => left; rfl
    | ok o =>
      cases o with
      | none => left; rfl
      | some pid =>
        by_cases hpid : pid = []
        · left; simp [hpid]
        · cases http with
          | exn => left; simp [hpid]
          | resp status jsonOk cs ss =>
            by_cases hst : status = 200
            · subst hst
              cases jsonOk with
              | true =>
                right
                exact ⟨cs, ss, rfl, by simp [hpid]⟩
              | false => left; simp [hpid]
            · left; simp [hpid, hst]

/-- Claim C9: if the cancellation signal is already set, the call
returns "Unknown" immediately, performing no network request and no
delay. -/
theorem getModEnvironment_stopped (url : String) (http : HttpOutcome) :
    getModEnvironmentRun true url http
      = { result := "Unknown", requested := false, slept := false } := rfl

/-- Claim C8, amended: the request delay runs if and only if
requests.get was invoked and returned a response; a call that fails
before the request (stop signal set, or no derivable project id) or
whose request raises a transport error skips the delay, while any
received response (any status, parseable or not) is followed by it. -/
theorem sleep_iff_response (stop : Bool) (url : String)
    (http : HttpOutcome) :
    (getModEnvironmentRun stop url http).slept = true
      ↔ ((getModEnvironmentRun stop url http).requested = true
          ∧ http ≠ HttpOutcome.exn) := by
  unfold getModEnvironmentRun
  cases stop with
  | true => simp
  | false =>
    simp only [Bool.false_eq_true, if_false]
    cases hsplit : nextAfterData (splitOnSlash url.toList []) with
    | error e => simp
    | ok o =>
      cases o with
      | none => simp
      | some pid =>
        by_cases hpid : pid = []
        · simp [hpid]
        · cases http with
          | exn => simp [hpid]
          | resp status jsonOk cs ss =>
            by_cases hst : status = 200
            · subst hst
              cases jsonOk <;> simp [hpid]
            · simp [hpid, hst]

/-- Counterexample to claim C8 as stated: a download reference with no
derivable project key returns "Unknown" before the request, so no delay
runs; and a transport error raises past the sleep call, so no delay
runs either. -/
theorem sleep_skipped_counterexample :
    (getModEnvironmentRun false "example.com"
        (HttpOutcome.resp 200 true none none)).slept = false
    ∧ (getModEnvironmentRun false
        "https://cdn.modrinth.com/data/AANobbMI/versions/x/sodium.jar"
        HttpOutcome.exn).slept = false := by
  constructor <;> rfl

/-- Row of the mods DataFrame built by process_mod_batch: Name, Side,
Download URL. -/
structure ModRow where
  name : String
  side : String
  url : String
deriving DecidableEq

/-- Embeds save_filtered_list (file_manager.py lines 184-214, identical
dispatch in main.py lines 218-243).  Returns the output filename and
the filtered rows that would be written.  none models the
UnboundLocalError the Python code raises for any other filter_type:
neither filename nor mods_filtered is ever assigned, and the exception
fires at their first use, before any file is written. -/
def save_filtered_list (mods_df : List ModRow) (filter_type : String) :
    Option (String × List ModRow) :=
  if filter_type = "all" then
    some ("Lista_Mods_Com_Ambiente.csv", mods_df)
  else if filter_type = "client" then
    some ("Lista_Mods_Client.csv", mods_df.filter (fun r => r.side = "Client"))
  else if filter_type = "server" then
    some ("Lista_Mods_Server.csv", mods_df.filter (fun r => r.side = "Server"))
  else if filter_type = "both" then
    some ("Lista_Mods_Both.csv", mods_df.filter (fun r => r.side = "Both"))
  else none

/-- Claim C10: any filter_type outside all, client, server, both raises
before assigning an output file, writing nothing; the four known values
write exactly the rows whose Side equals the corresponding filter, and
"all" writes every row. -/
theorem save_filtered_list_spec (rows : List ModRow) (ft : String) :
    (ft ≠ "all" → ft ≠ "client" → ft ≠ "server" → ft ≠ "both" →
        save_filtered_list rows ft = none)
    ∧ save_filtered_list rows "all" = some ("Lista_Mods_Com_Ambiente.csv", rows)
    ∧ save_filtered_list rows "client"
        = some ("Lista_Mods_Client.csv", rows.filter (fun r => r.side = "Client"))
    ∧ save_filtered_list rows "server"
        = some ("Lista_Mods_Server.csv", rows.filter (fun r => r.side = "Server"))
    ∧ save_filtered_list rows "both"
        = some ("Lista_Mods_Both.csv", rows.filter (fun r => r.side = "Both")) := by
  refine ⟨?_, by simp [save_filtered_list], by simp [save_filtered_list],
    by simp [save_filtered_list], by simp [save_filtered_list]⟩
  intro h1 h2 h3 h4
  simp [save_filtered_list, h1, h2, h3, h4]

/-!
Interleaving model for process_mod_batch (checker.py lines 112-148)
running on several worker threads sharing processed_mods and
progress_lock.  Each item of a batch is reduced to its derived display
name (os.path.basename of the path).  A worker handles one item in two
atomic phases, matching where the source reads and writes shared state:

- check: read of processed_mods at line 123; if the name is present the
  item is skipped, otherwise the worker enters the network call of
  line 128 with the name in flight.  The read is NOT under
  progress_lock.
- commit: the with progress_lock block of lines 130-137 inserting the
  name, followed by the results.append of line 139.

A schedule is the list of worker indices in execution order; running a
schedule from an initial state produces the reachable shared states.
The stop_event check and the progress bar are omitted: they do not
touch processed_mods or the emitted results.
-/
structure Worker where
  pending : List String
  inflight : Option String
  out : List String
deriving DecidableEq

structure PoolState where
  processed : List String
  workers : List Worker
deriving DecidableEq

/-- One micro-step of a single worker against the shared set, following
process_mod_batch: commit an in-flight name, or check the next pending
name against processed_mods (skipping it when present). -/
def stepWorker (processed : List String) (w : Worker) :
    List String × Worker :=
  match w.inflight with
  | some nm =>
    (nm :: processed, { w with inflight := none, out := w.out ++ [nm] })
  | none =>
    match w.pending with
    | [] => (processed, w)
    | nm :: rest =>
      if nm ∈ processed then (processed, { w with pending := rest })
      else (processed, { w with pending := rest, inflight := some nm })

/-- Advance worker i of the pool by one micro-step. -/
def stepPool (s : PoolState) (i : Nat) : PoolState :=
  match s.workers.get? i with
  | none => s
  | some w =>
    let pw := stepWorker s.processed w
    { processed := pw.fst, workers := s.workers.set i pw.snd }

/-- Run a schedule, one worker index per micro-step. -/
def runPool (s : PoolState) (sched : List Nat) : PoolState :=
  sched.foldl stepPool s

/-- Initial pool state for the given batches of derived names:
processed_mods is empty and every worker holds its batch. -/
def initPool (batches : List (List String)) : PoolState :=
  { processed := [],
    workers := batches.map
      (fun b => { pending := b, inflight := none, out := [] }) }

/-- Invariant carried through every schedule: all names the pool holds
come from the input batches, a worker in flight with a name has not
emitted it, each result list is contained in processed_mods, and each
result list has no duplicates. -/
def PoolInv (allNames : List String) (s : PoolState) : Prop :=
  (∀ nm ∈ s.processed, nm ∈ allNames)
  ∧ ∀ w ∈ s.workers,
      (∀ nm ∈ w.pending, nm ∈ allNames)
      ∧ (∀ nm, w.inflight = some nm → nm ∈ allNames ∧ nm ∉ w.out)
      ∧ (∀ nm ∈ w.out, nm ∈ s.processed)
      ∧ w.out.Nodup

theorem stepPool_inv (allNames : List String) (s : PoolState) (i : Nat)
    (h : PoolInv allNames s) : PoolInv allNames (stepPool s i) := by
  obtain ⟨hproc, hw⟩ := h
  cases hget : s.workers.get? i with
  | none =>
    have hstep : stepPool s i = s := by
      unfold stepPool
      rw [hget]
    rw [hstep]
    exact ⟨hproc, hw⟩
  | some w =>
    have hwmem : w ∈ s.workers := List.get?_mem hget
    obtain ⟨hpend, hinf, hout, hnd⟩ := hw w hwmem
    have hstep : stepPool s i
        = { processed := (stepWorker s.processed w).1,
            workers := s.workers.set i (stepWorker s.processed w).2 } := by
      unfold stepPool
      rw [hget]
    rw [hstep]
    cases hfl : w.inflight with
    | some nm =>
      obtain ⟨hnm_all, hnm_out⟩ := hinf nm hfl
      have hsw : stepWorker s.processed w
          = (nm :: s.processed,
             { w with inflight := none, out := w.out ++ [nm] }) := by
        simp [stepWorker, hfl]
      rw [hsw]
      constructor
      · intro x hx
        rcases List.mem_cons.mp hx with hx | hx
        · exact hx ▸ hnm_all
        · exact hproc x hx
      · intro w2 hw2
        rcases List.mem_or_eq_of_mem_set hw2 with hw2 | hw2
        · obtain ⟨h1, h2, h3, h4⟩ := hw w2 hw2
          exact ⟨h1, h2, fun x hx => List.mem_cons_of_mem _ (h3 x hx), h4⟩
        · subst hw2
          refine ⟨hpend, by simp, ?_, ?_⟩
          · intro x hx
            simp only [List.mem_append, List.mem_singleton] at hx
            rcases hx with hx | hx
            · exact List.mem_cons_of_mem _ (hout x hx)
            · exact hx ▸ List.mem_cons_self _ _
          · rw [List.nodup_append]
            exact ⟨hnd, List.nodup_singleton nm,
              by simpa [List.disjoint_singleton] using hnm_out⟩
    | none =>
      cases hpd : w.pending with
      | nil =>
        have hsw : stepWorker s.processed w = (s.processed, w) := by
          simp [stepWorker, hfl, hpd]
        rw [hsw]
        refine ⟨hproc, ?_⟩
        intro w2 hw2
        rcases List.mem_or_eq_of_mem_set hw2 with hw2 | hw2
        · exact hw w2 hw2
        · subst hw2
          exact ⟨hpend, hinf, hout, hnd⟩
      | cons nm rest =>
        have hnm_all : nm ∈ allNames := hpend nm (hpd ▸ List.mem_cons_self _ _)
        have hrest : ∀ x ∈ rest, x ∈ allNames := fun x hx =>
          hpend x (hpd ▸ List.mem_cons_of_mem _ hx)
        by_cases hmem : nm ∈ s.processed
        · have hsw : stepWorker s.processed w
              = (s.processed, { w with pending := rest }) := by
            simp [stepWorker, hfl, hpd, hmem]
          rw [hsw]
          refine ⟨hproc, ?_⟩
          intro w2 hw2
          rcases List.mem_or_eq_of_mem_set hw2 with hw2 | hw2
          · exact hw w2 hw2
          · subst hw2
            exact ⟨hrest, fun x hx => hinf x (hfl ▸ hx), hout, hnd⟩
        · have hsw : stepWorker s.processed w
              = (s.processed,
                 { w with pending := rest, inflight := some nm }) := by
            simp [stepWorker, hfl, hpd, hmem]
          rw [hsw]
          refine ⟨hproc, ?_⟩
          intro w2 hw2
          rcases List.mem_or_eq_of_mem_set hw2 with hw2 | hw2
          · exact hw w2 hw2
          · subst hw2
            refine ⟨hrest, ?_, hout, hnd⟩
            intro x hx
            simp only [Option.some_inj] at hx
            subst hx
            exact ⟨hnm_all, fun hc => hmem (hout nm hc)⟩

theorem runPool_inv (allNames : List String) (s : PoolState)
    (sched : List Nat) (h : PoolInv allNames s) :
    PoolInv allNames (runPool s sched) := by
  induction sched generalizing s with
  | nil => exact h
  | cons i rest ih => exact ih (stepPool s i) (stepPool_inv allNames s i h)

theorem initPool_inv (batches : List (List String)) :
    PoolInv batches.flatten (initPool batches) := by
  constructor
  · intro nm hnm
    simp [initPool] at hnm
  · intro w hwmem
    simp only [initPool, List.mem_map] at hwmem
    obtain ⟨b, hb, rfl⟩ := hwmem
    refine ⟨?_, by simp, by simp, by simp⟩
    intro nm hnm
    exact List.mem_flatten.mpr ⟨b, hb, hnm⟩

/-- Claim C7, amended.  After running any schedule over any batches, the
distinct names in processed_mods never exceed the distinct derived
names of the input, and no single worker emits a result twice for the
same name; the cross-worker part of the claim fails, see the
counterexample. -/
theorem runPool_dedup (batches : List (List String)) (sched : List Nat) :
    ((runPool (initPool batches) sched).processed.toFinset.card
        ≤ batches.flatten.toFinset.card)
    ∧ ∀ w ∈ (runPool (initPool batches) sched).workers, w.out.Nodup := by
  have hinv := runPool_inv batches.flatten (initPool batches) sched
    (initPool_inv batches)
  obtain ⟨hproc, hw⟩ := hinv
  constructor
  · apply Finset.card_le_card
    intro x hx
    rw [List.mem_toFinset] at hx ⊢
    exact hproc x hx
  · intro w hwmem
    exact (hw w hwmem).2.2.2

/-- Counterexample to claim C7 as stated: two workers whose batches both
contain the derived name a, interleaved check-check-commit-commit, each
emit a ClassificationResult for a, because the membership check of line
123 runs outside progress_lock and before the network call, while the
insert of line 131 happens only afterwards. -/
theorem runPool_duplicate_emission :
    ¬ (((runPool (initPool [["a"], ["a"]]) [0, 1, 0, 1]).workers.map
        Worker.out).flatten).Nodup := by
  decide

end ModSideChecker
